import Mathlib

/-!
Shallow embedding of the `udp-logger-rs` crate (src/lib.rs): the log levels,
the `UdpLogger` configuration, its level-filtering (`enabled`), its tiered
source/destination selection, the key/value accumulator, and the two wire
encodings (`Uncompressed` text and `ByteBuffer` binary), together with proofs
of the specification's claims about them.

Machine integers are modelled as `Nat`/`Int` with explicit `% 2 ^ w` where
Rust wrapping arithmetic matters (`usize::wrapping_neg`, `as u32`,
`i64::to_be_bytes`).  Rust `UdpSocket` values are represented by the address
string they were bound to; the network and the clock are passed in as
explicit parameters.
-/

namespace UdpLoggerRs

/-- Log levels of the `log` crate (`log::Level`): `Error = 1 … Trace = 5`. -/
inductive Level where
  | error
  | warn
  | info
  | debug
  | trace
deriving DecidableEq, Repr

/-- Numeric rank of a `log::Level` (its `usize` discriminant, `Error = 1`). -/
def Level.rank : Level → Nat
  | .error => 1
  | .warn => 2
  | .info => 3
  | .debug => 4
  | .trace => 5

/-- Level filters of the `log` crate (`log::LevelFilter`): `Off = 0 … Trace = 5`. -/
inductive LevelFilter where
  | off
  | error
  | warn
  | info
  | debug
  | trace
deriving DecidableEq, Repr

/-- Numeric rank of a `log::LevelFilter` (its `usize` discriminant, `Off = 0`). -/
def LevelFilter.rank : LevelFilter → Nat
  | .off => 0
  | .error => 1
  | .warn => 2
  | .info => 3
  | .debug => 4
  | .trace => 5

/-- The `log` crate's `Level::to_level_filter`. -/
def Level.toLevelFilter : Level → LevelFilter
  | .error => .error
  | .warn => .warn
  | .info => .info
  | .debug => .debug
  | .trace => .trace

/-- Derived `Ord` comparison `<=` on `log::LevelFilter` (discriminant order). -/
def LevelFilter.le (a b : LevelFilter) : Bool :=
  decide (a.rank ≤ b.rank)

/-- The `log` crate's `PartialOrd<Level> for LevelFilter` comparison
`filter >= level`, which compares the `usize` discriminants. -/
def LevelFilter.geLevel (f : LevelFilter) (l : Level) : Bool :=
  decide (l.rank ≤ f.rank)

/-- Rust `str::starts_with` on strings, as a list-of-chars prefix test. -/
def strStartsWith (s pre : String) : Bool :=
  pre.toList.isPrefixOf s.toList

/-- Rust `usize::wrapping_neg` (two's-complement negation modulo `2 ^ 64`),
used by `partial_init` as the sort key `name.len().wrapping_neg()`. -/
def usizeWrappingNeg (n : Nat) : Nat :=
  (2 ^ 64 - n % 2 ^ 64) % 2 ^ 64

/-- Stable insertion of `a` into `l`, keeping `a` before later elements with
an equal key.  `insertByKey` and `sortByKey` model Rust's stable
`slice::sort_by_key`. -/
def insertByKey {α : Type} (key : α → Nat) (a : α) : List α → List α
  | [] => [a]
  | b :: l => if key a ≤ key b then a :: b :: l else b :: insertByKey key a l

/-- Stable sort by a natural-number key, ascending (Rust `sort_by_key`). -/
def sortByKey {α : Type} (key : α → Nat) : List α → List α
  | [] => []
  | a :: l => insertByKey key a (sortByKey key l)

/-- Wire formats (`WireFmt` in src/lib.rs). -/
inductive WireFmt where
  | Uncompressed
  | ByteBuffer
deriving DecidableEq, Repr

/-- The `UdpLogger` configuration (struct `UdpLogger` in src/lib.rs).
`UdpSocket` fields are represented by their bound address strings. -/
structure UdpLogger where
  default_level : LevelFilter
  module_levels : List (String × LevelFilter)
  default_source : String
  sources : List (LevelFilter × String)
  default_destination : String
  destinations : List (LevelFilter × String)
  wire_fmt : WireFmt
deriving Repr

/-- The configuration built by `UdpLogger::new()` (the default bind succeeds). -/
def UdpLogger.new : UdpLogger :=
  { default_level := .trace
    module_levels := []
    default_source := "127.0.0.1:4000"
    sources := []
    default_destination := "127.0.0.1:4010"
    destinations := []
    wire_fmt := .Uncompressed }

/-- Rust `Ord::max` on `LevelFilter` (`a.max b` returns `b` when equal). -/
def lfMaxPair (a b : LevelFilter) : LevelFilter :=
  if a.rank ≤ b.rank then b else a

/-- Rust `Iterator::max` over a list of `LevelFilter`s. -/
def maxOfLevels (ls : List LevelFilter) : Option LevelFilter :=
  ls.foldl
    (fun acc l =>
      match acc with
      | none => some l
      | some m => some (lfMaxPair m l))
    none

/-- The normalisation step `UdpLogger::partial_init`: sorts the module rules
by `name.len().wrapping_neg()` (most specific first), sorts both tier lists
ascending by threshold, and computes the value handed to
`log::set_max_level` (returned as the second component). -/
def UdpLogger.partialInit (s : UdpLogger) : UdpLogger × LevelFilter :=
  let sortedModules := sortByKey (fun p => usizeWrappingNeg p.1.length) s.module_levels
  let maxFound := maxOfLevels (s.module_levels.map Prod.snd)
  let maxLevel :=
    match maxFound with
    | some lvl => lfMaxPair lvl s.default_level
    | none => s.default_level
  ({ s with
      module_levels := sortedModules
      sources := sortByKey (fun p => p.1.rank) s.sources
      destinations := sortByKey (fun p => p.1.rank) s.destinations },
    maxLevel)

/-- The threshold against which `Log::enabled for UdpLogger` compares: the
level of the first module rule (in the sorted `module_levels`) whose name is
a prefix of the target, or the default level if none matches. -/
def UdpLogger.resolveThreshold (s : UdpLogger) (metaTarget : String) : LevelFilter :=
  ((s.module_levels.find? fun p => strStartsWith metaTarget p.1).map Prod.snd).getD
    s.default_level

/-- The per-category severity filter `Log::enabled for UdpLogger`:
`metadata.level().to_level_filter() <= first matching module rule's level,
or the default level if no rule's name is a prefix of the target`. -/
def UdpLogger.enabled (s : UdpLogger) (metaLevel : Level) (metaTarget : String) : Bool :=
  LevelFilter.le metaLevel.toLevelFilter (s.resolveThreshold metaTarget)

/-- Tier selection used by `UdpLogger::log` for both `sources` and
`destinations`: the first tier whose threshold satisfies
`level >= &record.level()`, else the default endpoint. -/
def selectTier {α : Type} (tiers : List (LevelFilter × α)) (lvl : Level) (dflt : α) : α :=
  ((tiers.find? fun t => t.1.geLevel lvl).map Prod.snd).getD dflt

/-! ### Timestamps and the text encoding

`UdpLogger::log` formats `chrono::Utc::now()` with `"%Y-%m-%d %H:%M:%S%.3f"`.
A `chrono` UTC datetime is modelled by its civil fields; `chrono`'s own
invariants (month 1–12, day within the month, hour/minute/second/millisecond
in range) become the `DateTimeUtc.Valid` predicate, and we restrict to years
with at most four digits, where `%Y` zero-pads to exactly four characters. -/

/-- Fields of a `chrono::DateTime<Utc>` value as rendered by the format
string `"%Y-%m-%d %H:%M:%S%.3f"`. -/
structure DateTimeUtc where
  year : Nat
  month : Nat
  day : Nat
  hour : Nat
  minute : Nat
  second : Nat
  millis : Nat
deriving DecidableEq, Repr

/-- Gregorian leap-year test. -/
def isLeapYear (y : Nat) : Bool :=
  y % 4 == 0 && (y % 100 != 0 || y % 400 == 0)

/-- Number of days in a month of the proleptic Gregorian calendar. -/
def daysInMonth (y m : Nat) : Nat :=
  if m = 2 then (if isLeapYear y then 29 else 28)
  else if m = 4 ∨ m = 6 ∨ m = 9 ∨ m = 11 then 30
  else 31

/-- Invariant maintained by `chrono` for a UTC datetime, restricted to
four-digit years (every realistic `Utc::now()` value satisfies it). -/
def DateTimeUtc.Valid (dt : DateTimeUtc) : Prop :=
  dt.year ≤ 9999 ∧ 1 ≤ dt.month ∧ dt.month ≤ 12 ∧ 1 ≤ dt.day ∧
    dt.day ≤ daysInMonth dt.year dt.month ∧ dt.hour ≤ 23 ∧ dt.minute ≤ 59 ∧
    dt.second ≤ 59 ∧ dt.millis ≤ 999

instance (dt : DateTimeUtc) : Decidable dt.Valid := by
  unfold DateTimeUtc.Valid; infer_instance

/-- Decimal digit character for `n % 10`. -/
def dCh (n : Nat) : Char :=
  match n % 10 with
  | 0 => '0'
  | 1 => '1'
  | 2 => '2'
  | 3 => '3'
  | 4 => '4'
  | 5 => '5'
  | 6 => '6'
  | 7 => '7'
  | 8 => '8'
  | _ => '9'

/-- Two-digit zero-padded decimal rendering (`%m`, `%d`, `%H`, `%M`, `%S`). -/
def pad2 (n : Nat) : List Char :=
  [dCh (n / 10), dCh n]

/-- Three-digit zero-padded decimal rendering (`%.3f`, without the dot). -/
def pad3 (n : Nat) : List Char :=
  [dCh (n / 100), dCh (n / 10), dCh n]

/-- Four-digit zero-padded decimal rendering (`%Y` for years 0–9999). -/
def pad4 (n : Nat) : List Char :=
  [dCh (n / 1000), dCh (n / 100), dCh (n / 10), dCh n]

/-- Rendering of `dt.format("%Y-%m-%d %H:%M:%S%.3f")` as a character list. -/
def formatTs (dt : DateTimeUtc) : List Char :=
  pad4 dt.year ++ '-' :: pad2 dt.month ++ '-' :: pad2 dt.day ++
    ' ' :: pad2 dt.hour ++ ':' :: pad2 dt.minute ++ ':' :: pad2 dt.second ++
    '.' :: pad3 dt.millis

/-- String form of the formatted timestamp. -/
def tsString (dt : DateTimeUtc) : String :=
  String.mk (formatTs dt)

/-- Numeric value of a digit character. -/
def digitVal (c : Char) : Nat :=
  c.toNat - 48

/-- Checks that a character list is a well-formed `YYYY-MM-DD HH:MM:SS.mmm`
UTC timestamp: 23 characters, digits and separators in place, and every
field within its calendar range. -/
def validTimestamp23 (cs : List Char) : Bool :=
  match cs with
  | [y1, y2, y3, y4, a1, m1, m2, a2, d1, d2, a3, h1, h2, a4, n1, n2, a5, s1, s2, a6,
      f1, f2, f3] =>
    a1 == '-' && a2 == '-' && a3 == ' ' && a4 == ':' && a5 == ':' && a6 == '.' &&
    [y1, y2, y3, y4, m1, m2, d1, d2, h1, h2, n1, n2, s1, s2, f1, f2, f3].all
      Char.isDigit &&
    (let y := digitVal y1 * 1000 + digitVal y2 * 100 + digitVal y3 * 10 + digitVal y4
     let mo := digitVal m1 * 10 + digitVal m2
     let d := digitVal d1 * 10 + digitVal d2
     let h := digitVal h1 * 10 + digitVal h2
     let mi := digitVal n1 * 10 + digitVal n2
     let sec := digitVal s1 * 10 + digitVal s2
     decide (1 ≤ mo) && decide (mo ≤ 12) && decide (1 ≤ d) &&
       decide (d ≤ daysInMonth y mo) && decide (h ≤ 23) && decide (mi ≤ 59) &&
       decide (sec ≤ 59))
  | _ => false

/-- Display name of a `log::Level` (`record.level().to_string()`). -/
def levelName : Level → String
  | .error => "ERROR"
  | .warn => "WARN"
  | .info => "INFO"
  | .debug => "DEBUG"
  | .trace => "TRACE"

/-- The `{:<5}` format padding: left-justified, space-padded to width 5. -/
def padTo5 (s : String) : String :=
  s ++ String.mk (List.replicate (5 - s.length) ' ')

/-- The `Uncompressed` payload
`format!("{} {:<5} [{}] {}{}", now, level, target, args, kvs)`. -/
def textPayload (dt : DateTimeUtc) (lvl : Level) (target args kvText : String) : String :=
  tsString dt ++ " " ++ padTo5 (levelName lvl) ++ " [" ++ target ++ "] " ++ args ++ kvText

/-! ### Key/value accumulation (`KVAccumulator`) -/

/-- The `KVAccumulator` visitor state (a `String` it appends to). -/
structure KVAccumulator where
  acc : String
deriving DecidableEq, Repr

instance : Inhabited KVAccumulator := ⟨⟨""⟩⟩

/-- One `visit_pair` call: pushes `format!(" {}={}", key, value)`. -/
def KVAccumulator.visitPair (v : KVAccumulator) (key value : String) : KVAccumulator :=
  ⟨v.acc ++ " " ++ key ++ "=" ++ value⟩

/-- A key/value `Source`: an ordered list of pairs, together with an optional
failure point — `visit` yields the pairs in order and, when `failAfter = some k`
with `k` less than the number of pairs, errors after yielding the first `k`. -/
structure KVSource where
  pairs : List (String × String)
  failAfter : Option Nat
deriving Repr

/-- The pairs a source actually yields before (possibly) failing. -/
def KVSource.yielded (src : KVSource) : List (String × String) :=
  match src.failAfter with
  | none => src.pairs
  | some k => src.pairs.take k

/-- Walking a source with a `KVAccumulator` (`source.visit(&mut visitor)`):
returns the final visitor state and the `Result` of the walk. -/
def KVSource.visit (src : KVSource) (v : KVAccumulator) : KVAccumulator × Except String Unit :=
  (src.yielded.foldl (fun vv p => vv.visitPair p.1 p.2) v,
    match src.failAfter with
    | none => .ok ()
    | some k => if k < src.pairs.length then .error "kv source error" else .ok ())

/-! ### The binary encoding (`WireFmt::ByteBuffer`) -/

/-- UTF-8 encoding of one character (1–4 bytes). -/
def utf8Char (c : Char) : List Nat :=
  let n := c.toNat
  if n < 0x80 then [n]
  else if n < 0x800 then
    [0xC0 + n / 0x40, 0x80 + n % 0x40]
  else if n < 0x10000 then
    [0xE0 + n / 0x1000, 0x80 + n / 0x40 % 0x40, 0x80 + n % 0x40]
  else
    [0xF0 + n / 0x40000, 0x80 + n / 0x1000 % 0x40, 0x80 + n / 0x40 % 0x40, 0x80 + n % 0x40]

/-- UTF-8 byte sequence of a string (`str::as_bytes`). -/
def utf8Bytes (s : String) : List Nat :=
  (s.toList.map utf8Char).flatten

/-- Big-endian bytes of a `u32` (`as u32` truncates modulo `2 ^ 32`). -/
def u32be (n : Nat) : List Nat :=
  [n / 2 ^ 24 % 256, n / 2 ^ 16 % 256, n / 2 ^ 8 % 256, n % 256]

/-- Big-endian bytes of an `i64` (`i64::to_be_bytes`, two's complement). -/
def i64be (ms : Int) : List Nat :=
  let m := (ms % (2 ^ 64 : Int)).toNat
  [m / 2 ^ 56 % 256, m / 2 ^ 48 % 256, m / 2 ^ 40 % 256, m / 2 ^ 32 % 256,
    m / 2 ^ 24 % 256, m / 2 ^ 16 % 256, m / 2 ^ 8 % 256, m % 256]

/-- The level byte `[u8; 1]` written first in the `ByteBuffer` encoding. -/
def levelBytes : Level → List Nat
  | .error => [1]
  | .warn => [2]
  | .info => [3]
  | .debug => [4]
  | .trace => [5]

/-- Model of `bytebuffer::ByteBuffer`: an append-only byte sequence. -/
structure ByteBuffer where
  data : List Nat
deriving DecidableEq, Repr

/-- Construction `ByteBuffer::new()`. -/
def ByteBuffer.new : ByteBuffer :=
  ⟨[]⟩

/-- Appending raw bytes (`Write::write` on a `ByteBuffer`). -/
def ByteBuffer.write (b : ByteBuffer) (bs : List Nat) : ByteBuffer :=
  ⟨b.data ++ bs⟩

/-- Writing `ByteBuffer::write_string`: a big-endian `u32` byte length
followed by the string's UTF-8 bytes. -/
def ByteBuffer.writeString (b : ByteBuffer) (s : String) : ByteBuffer :=
  (b.write (u32be (utf8Bytes s).length)).write (utf8Bytes s)

/-- Extraction `ByteBuffer::to_bytes`. -/
def ByteBuffer.toBytes (b : ByteBuffer) : List Nat :=
  b.data

/-- The complete `WireFmt::ByteBuffer` frame built by `UdpLogger::log`:
level byte, then `Utc::now().timestamp_millis().to_be_bytes()`, then
`write_string` of `format!("[{}] {}{}", target, args, kvs)`. -/
def byteBufferPayload (ms : Int) (lvl : Level) (text : String) : List Nat :=
  (((ByteBuffer.new.write (levelBytes lvl)).write (i64be ms)).writeString text).toBytes

/-! ### Builder methods and the log orchestration -/

/-- Builder `UdpLogger::with_level`. -/
def UdpLogger.withLevel (s : UdpLogger) (level : LevelFilter) : UdpLogger :=
  { s with default_level := level }

/-- Builder `UdpLogger::with_module_level` (pushes the rule; sorting happens
in `partial_init`). -/
def UdpLogger.withModuleLevel (s : UdpLogger) (target : String) (level : LevelFilter) :
    UdpLogger :=
  { s with module_levels := s.module_levels ++ [(target, level)] }

/-- Builder `UdpLogger::with_source`: binds a socket to `source` and panics
(`expect`) if the bind fails.  The operating system's willingness to bind is
the explicit parameter `bindOk`; a panic is modelled as `Except.error`. -/
def UdpLogger.withSource (s : UdpLogger) (bindOk : String → Bool) (source : String) :
    Except String UdpLogger :=
  if bindOk source then .ok { s with default_source := source }
  else .error "unable to bind to socket"

/-- Builder `UdpLogger::with_source_level`: binds a level-specific source
socket, panicking if the bind fails. -/
def UdpLogger.withSourceLevel (s : UdpLogger) (bindOk : String → Bool) (source : String)
    (level : LevelFilter) : Except String UdpLogger :=
  if bindOk source then .ok { s with sources := s.sources ++ [(level, source)] }
  else .error "unable to bind to socket"

/-- Builder `UdpLogger::with_destination`: stores the destination address
string as-is, with no validation and no possibility of failure. -/
def UdpLogger.withDestination (s : UdpLogger) (destination : String) : UdpLogger :=
  { s with default_destination := destination }

/-- Builder `UdpLogger::with_destination_level`: stores the level-specific
destination address string as-is, with no validation and no possibility of
failure. -/
def UdpLogger.withDestinationLevel (s : UdpLogger) (destination : String)
    (level : LevelFilter) : UdpLogger :=
  { s with destinations := s.destinations ++ [(level, destination)] }

/-- Builder `UdpLogger::with_wire_fmt`. -/
def UdpLogger.withWireFmt (s : UdpLogger) (wire_fmt : WireFmt) : UdpLogger :=
  { s with wire_fmt := wire_fmt }

/-- A `log::Record`: level, target, module path, formatted message
(`record.args()`), and its key/value source. -/
structure Record where
  level : Level
  target : String
  module_path : String
  args : String
  kvs : KVSource
deriving Repr

/-- Observable outcome of one `UdpLogger::log` call: the datagram send
attempts `(source socket, payload bytes, destination)` made, and the
diagnostics printed to stdout.  `log` returns `()` in the source; the
outcome records its effects. -/
structure LogOutcome where
  sendCalls : List (String × List Nat × String)
  diagnostics : List String
deriving Repr

/-- One `Log::log for UdpLogger` call.  The clock (`Utc::now()`) enters as
the civil fields `dt` and the millisecond timestamp `ms`; the network enters
as `net source payload destination`, returning `send_to`'s `io::Result`.
Mirrors src/lib.rs lines 603–667: filter, pick source and destination tiers,
resolve the target, accumulate key/values (ignoring the walk's `Result`),
encode in the configured wire format, send once, and report any send error
to stdout. -/
def UdpLogger.logRun (s : UdpLogger) (dt : DateTimeUtc) (ms : Int) (record : Record)
    (net : String → List Nat → String → Except String Nat) : LogOutcome :=
  if s.enabled record.level record.target then
    let socket := selectTier s.sources record.level s.default_source
    let remote_addr := selectTier s.destinations record.level s.default_destination
    let target := if record.target ≠ "" then record.target else record.module_path
    let visitor := (record.kvs.visit default).1
    let payload : List Nat :=
      match s.wire_fmt with
      | .Uncompressed =>
        utf8Bytes (textPayload dt record.level target record.args visitor.acc)
      | .ByteBuffer =>
        byteBufferPayload ms record.level ("[" ++ target ++ "] " ++ record.args ++ visitor.acc)
    match net socket payload remote_addr with
    | .ok _ => { sendCalls := [(socket, payload, remote_addr)], diagnostics := [] }
    | .error err =>
      { sendCalls := [(socket, payload, remote_addr)]
        diagnostics := ["error sending payload, err=" ++ err] }
  else { sendCalls := [], diagnostics := [] }

/-- Spec-side description of the rendered attributes (§4.3 of the spec): the
concatenation, for each pair in source order, of a space, the key, `=`, and
the value; empty for an empty source.  Used to compare the source-derived
`KVAccumulator` fold against the specification. -/
def renderedAttrs : List (String × String) → String
  | [] => ""
  | p :: t => " " ++ p.1 ++ "=" ++ p.2 ++ renderedAttrs t

/-! ### Lemmas about the stable sort -/

/-- Inserting with `insertByKey` is a permutation of consing. -/
theorem insertByKey_perm {α : Type} (key : α → Nat) (a : α) (l : List α) :
    List.Perm (insertByKey key a l) (a :: l) := by
  induction l with
  | nil => simp [insertByKey]
  | cons b t ih =>
    unfold insertByKey
    split
    · exact List.Perm.refl _
    · exact (ih.cons b).trans (List.Perm.swap a b t)

/-- Sorting with `sortByKey` permutes the input. -/
theorem sortByKey_perm {α : Type} (key : α → Nat) (l : List α) :
    List.Perm (sortByKey key l) l := by
  induction l with
  | nil => simp [sortByKey]
  | cons a t ih => exact (insertByKey_perm key a (sortByKey key t)).trans (ih.cons a)

/-- Insertion with `insertByKey` preserves sortedness by key. -/
theorem insertByKey_pairwise {α : Type} (key : α → Nat) (a : α) (l : List α)
    (h : l.Pairwise fun x y => key x ≤ key y) :
    (insertByKey key a l).Pairwise fun x y => key x ≤ key y := by
  induction l with
  | nil => simp [insertByKey]
  | cons b t ih =>
    rw [List.pairwise_cons] at h
    unfold insertByKey
    split
    case isTrue hab =>
      refine List.pairwise_cons.2 ⟨?_, List.pairwise_cons.2 h⟩
      intro x hx
      rcases List.mem_cons.1 hx with rfl | hx
      · exact hab
      · exact le_trans hab (h.1 x hx)
    case isFalse hab =>
      refine List.pairwise_cons.2 ⟨?_, ih h.2⟩
      intro x hx
      rcases List.mem_cons.1 ((insertByKey_perm key a t).mem_iff.1 hx) with rfl | hx
      · omega
      · exact h.1 x hx

/-- Sorting with `sortByKey` yields a list sorted (non-strictly) by key. -/
theorem sortByKey_pairwise {α : Type} (key : α → Nat) (l : List α) :
    (sortByKey key l).Pairwise fun x y => key x ≤ key y := by
  induction l with
  | nil => simp [sortByKey]
  | cons a t ih => exact insertByKey_pairwise key a _ ih

/-! ### Generic facts about tier selection -/

/-- The ranks of `Level.toLevelFilter` agree with the level's own rank. -/
theorem Level.toLevelFilter_rank (l : Level) : l.toLevelFilter.rank = l.rank := by
  cases l <;> rfl

/-- In a tier list sorted ascending by threshold rank, the first tier
covering a level has the minimum threshold among covering tiers. -/
theorem selectTier_min {α : Type} (lvl : Level) (tiers : List (LevelFilter × α))
    (hp : tiers.Pairwise fun a b => a.1.rank ≤ b.1.rank) (u : LevelFilter × α)
    (hu : tiers.find? (fun t => t.1.geLevel lvl) = some u) :
    ∀ t ∈ tiers, lvl.rank ≤ t.1.rank → u.1.rank ≤ t.1.rank := by
  induction tiers with
  | nil => simp at hu
  | cons a rest ih =>
    intro t ht hcov
    rw [List.pairwise_cons] at hp
    by_cases ha : a.1.geLevel lvl = true
    · have hfind : List.find? (fun t => t.1.geLevel lvl) (a :: rest) = some a :=
        List.find?_cons_of_pos rest ha
      rw [hfind] at hu
      cases hu
      rcases List.mem_cons.1 ht with rfl | ht
      · exact le_refl _
      · exact hp.1 t ht
    · have hfind : List.find? (fun t => t.1.geLevel lvl) (a :: rest) =
          List.find? (fun t => t.1.geLevel lvl) rest :=
        List.find?_cons_of_neg rest ha
      rw [hfind] at hu
      rcases List.mem_cons.1 ht with rfl | ht
      · simp [LevelFilter.geLevel] at ha
        omega
      · exact ih hp.2 hu t ht hcov

/-! ### Claim C2 -/

/-- C2: for every record severity `L` and every tier list sorted ascending by
threshold rank, selection returns the endpoint of the first tier whose
threshold rank is ≥ `L`'s rank — which is a minimum-threshold covering tier —
and the default endpoint when no tier covers `L`; and `UdpLogger::log`
computes its source and destination endpoints independently by this same
rule. -/
theorem selectTier_first_covering_min :
    (∀ {α : Type} (tiers : List (LevelFilter × α)) (lvl : Level) (dflt : α),
      tiers.Pairwise (fun a b => a.1.rank ≤ b.1.rank) →
      ((tiers.find? fun t => t.1.geLevel lvl) = none →
          selectTier tiers lvl dflt = dflt ∧ ∀ t ∈ tiers, t.1.rank < lvl.rank) ∧
      (∀ u, (tiers.find? fun t => t.1.geLevel lvl) = some u →
          selectTier tiers lvl dflt = u.2 ∧ lvl.rank ≤ u.1.rank ∧
            ∀ t ∈ tiers, lvl.rank ≤ t.1.rank → u.1.rank ≤ t.1.rank)) ∧
    (∀ (s : UdpLogger) (dt : DateTimeUtc) (ms : Int) (rec : Record)
        (net : String → List Nat → String → Except String Nat),
      s.enabled rec.level rec.target = true →
      (s.logRun dt ms rec net).sendCalls.map (fun c => (c.1, c.2.2))
        = [(selectTier s.sources rec.level s.default_source,
            selectTier s.destinations rec.level s.default_destination)]) := by
  constructor
  · intro α tiers lvl dflt hp
    constructor
    · intro hnone
      refine ⟨by simp [selectTier, hnone], ?_⟩
      intro t ht
      have := List.find?_eq_none.1 hnone t ht
      simp [LevelFilter.geLevel] at this
      omega
    · intro u hu
      refine ⟨by simp [selectTier, hu], ?_, selectTier_min lvl tiers hp u hu⟩
      have := List.find?_some hu
      simpa [LevelFilter.geLevel] using this
  · intro s dt ms rec net h
    unfold UdpLogger.logRun
    rw [if_pos h]
    split <;> split <;> dsimp only <;> split <;> simp

/-- Witness for C2 at the spec's end-to-end scenario 2: one destination tier
`(Info, "D2")` with default `"D1"`; `Warn` routes to `"D2"`, `Debug` to
`"D1"`. -/
theorem selectTier_first_covering_min_spot :
    selectTier [(LevelFilter.info, "D2")] Level.warn "D1" = "D2" ∧
    selectTier [(LevelFilter.info, "D2")] Level.debug "D1" = "D1" := by
  constructor
  · exact ((selectTier_first_covering_min.1 [(LevelFilter.info, "D2")] Level.warn "D1"
      (by decide)).2 (LevelFilter.info, "D2") (by decide)).1
  · exact ((selectTier_first_covering_min.1 [(LevelFilter.info, "D2")] Level.debug "D1"
      (by decide)).1 (by decide)).1

/-! ### Claim C3 -/

/-- The filter `enabled` unfolds to a rank comparison against the resolved
threshold. -/
theorem enabled_rank_iff (s : UdpLogger) (tgt : String) (lvl : Level) :
    s.enabled lvl tgt = true ↔ lvl.rank ≤ (s.resolveThreshold tgt).rank := by
  simp [UdpLogger.enabled, LevelFilter.le, Level.toLevelFilter_rank]

/-- C3: for a fixed resolved threshold, `enabled` holds iff the record
level's rank is at most the threshold's rank, and hence a more severe level
is always at least as permitted as a more verbose one. -/
theorem enabled_iff_rank_le (s : UdpLogger) (tgt : String) :
    (∀ lvl : Level, s.enabled lvl tgt = true ↔ lvl.rank ≤ (s.resolveThreshold tgt).rank) ∧
    (∀ l1 l2 : Level, l1.rank ≤ l2.rank → s.enabled l2 tgt = true → s.enabled l1 tgt = true) :=
  ⟨enabled_rank_iff s tgt,
    fun l1 l2 h h2 =>
      (enabled_rank_iff s tgt l1).2 (le_trans h ((enabled_rank_iff s tgt l2).1 h2))⟩

/-- Witness for C3: with the default configuration (threshold `Trace`),
`Error` is enabled because `Trace` is. -/
theorem enabled_iff_rank_le_spot : UdpLogger.new.enabled .error "app" = true :=
  (enabled_iff_rank_le UdpLogger.new "app").2 .error .trace (by decide) (by decide)

/-! ### Claim C6 -/

/-- Folding `visit_pair` over pairs appends exactly the spec's rendering. -/
theorem kvfold_acc (ps : List (String × String)) (v : KVAccumulator) :
    (ps.foldl (fun vv p => vv.visitPair p.1 p.2) v).acc = v.acc ++ renderedAttrs ps := by
  induction ps generalizing v with
  | nil => simp [renderedAttrs]
  | cons p t ih =>
    simp only [List.foldl_cons, renderedAttrs, ih]
    simp [KVAccumulator.visitPair, String.append_assoc]

/-- C6: visiting an attribute source walks it once and renders exactly the
concatenation of `" key=value"` in source order, with no escaping,
truncation, or deduplication; an empty source renders the empty string. -/
theorem kv_render_concat (ps : List (String × String)) :
    ((KVSource.mk ps none).visit default).1.acc = renderedAttrs ps ∧
    ((KVSource.mk [] none).visit default).1.acc = "" := by
  refine ⟨?_, rfl⟩
  have := kvfold_acc ps default
  simpa [KVSource.visit, KVSource.yielded] using this

/-! ### Claim C10 -/

/-- First component of `lfMaxPair` bounds from below. -/
theorem lfMaxPair_left_le (a b : LevelFilter) : a.rank ≤ (lfMaxPair a b).rank := by
  unfold lfMaxPair
  split <;> omega

/-- Second component of `lfMaxPair` bounds from below. -/
theorem lfMaxPair_right_le (a b : LevelFilter) : b.rank ≤ (lfMaxPair a b).rank := by
  unfold lfMaxPair
  split <;> omega

/-- The maximum of a pair is one of the pair. -/
theorem lfMaxPair_eq_or (a b : LevelFilter) : lfMaxPair a b = a ∨ lfMaxPair a b = b := by
  unfold lfMaxPair
  split
  · exact Or.inr rfl
  · exact Or.inl rfl

/-- Invariant of the fold underlying `maxOfLevels`. -/
theorem maxOfLevels_go (ls : List LevelFilter) : ∀ m : LevelFilter,
    ∃ m', ls.foldl
        (fun acc l =>
          match acc with
          | none => some l
          | some mm => some (lfMaxPair mm l)) (some m) = some m' ∧
      m.rank ≤ m'.rank ∧ (∀ x ∈ ls, x.rank ≤ m'.rank) ∧ (m' = m ∨ m' ∈ ls) := by
  induction ls with
  | nil =>
    intro m
    exact ⟨m, rfl, le_refl _, by simp, Or.inl rfl⟩
  | cons x t ih =>
    intro m
    obtain ⟨m', heq, hge, hall, hmem⟩ := ih (lfMaxPair m x)
    refine ⟨m', by simpa using heq, le_trans (lfMaxPair_left_le m x) hge, ?_, ?_⟩
    · intro y hy
      rcases List.mem_cons.1 hy with rfl | hy
      · exact le_trans (lfMaxPair_right_le m y) hge
      · exact hall y hy
    · rcases hmem with rfl | hmem
      · rcases lfMaxPair_eq_or m x with h | h
        · exact Or.inl h
        · rw [h]
          exact Or.inr (List.mem_cons_self x t)
      · exact Or.inr (List.mem_cons_of_mem x hmem)

/-- The `Iterator::max` model returns `none` exactly on the empty list, and
otherwise an element bounding every rank. -/
theorem maxOfLevels_spec (ls : List LevelFilter) :
    (ls = [] ∧ maxOfLevels ls = none) ∨
      ∃ m', maxOfLevels ls = some m' ∧ (∀ x ∈ ls, x.rank ≤ m'.rank) ∧ m' ∈ ls := by
  cases ls with
  | nil => exact Or.inl ⟨rfl, rfl⟩
  | cons x t =>
    obtain ⟨m', heq, hge, hall, hmem⟩ := maxOfLevels_go t x
    refine Or.inr ⟨m', heq, ?_, ?_⟩
    · intro y hy
      rcases List.mem_cons.1 hy with rfl | hy
      · exact hge
      · exact hall y hy
    · rcases hmem with rfl | hmem
      · exact List.mem_cons_self _ _
      · exact List.mem_cons_of_mem x hmem

/-- The resolved threshold is either the default level or the level of some
module rule. -/
theorem resolveThreshold_mem (s : UdpLogger) (tgt : String) :
    s.resolveThreshold tgt = s.default_level ∨
      ∃ p ∈ s.module_levels, s.resolveThreshold tgt = p.2 := by
  unfold UdpLogger.resolveThreshold
  cases hfind : s.module_levels.find? fun p => strStartsWith tgt p.1 with
  | none => exact Or.inl rfl
  | some p => exact Or.inr ⟨p, List.mem_of_find?_eq_some hfind, rfl⟩

/-- C10: `partial_init` hands `log::set_max_level` the maximum of the
default level and every per-module override level, and every record
admitted by the per-category filter `enabled` also passes the global
max-level gate `lvl <= max_level()`. -/
theorem enabled_implies_max_level_gate (s : UdpLogger) :
    s.default_level.rank ≤ (s.partialInit).2.rank ∧
    (∀ p ∈ s.module_levels, p.2.rank ≤ (s.partialInit).2.rank) ∧
    ((s.partialInit).2 = s.default_level ∨
      ∃ p ∈ s.module_levels, (s.partialInit).2 = p.2) ∧
    (∀ (tgt : String) (lvl : Level), (s.partialInit).1.enabled lvl tgt = true →
      lvl.rank ≤ (s.partialInit).2.rank) := by
  have hM : (s.partialInit).2 =
      match maxOfLevels (s.module_levels.map Prod.snd) with
      | some lvl => lfMaxPair lvl s.default_level
      | none => s.default_level := rfl
  have hdef : s.default_level.rank ≤ (s.partialInit).2.rank := by
    rw [hM]
    rcases maxOfLevels_spec (s.module_levels.map Prod.snd) with ⟨_, hnone⟩ | ⟨m', hsome, _, _⟩
    · rw [hnone]
    · rw [hsome]
      exact lfMaxPair_right_le m' s.default_level
  have hmods : ∀ p ∈ s.module_levels, p.2.rank ≤ (s.partialInit).2.rank := by
    intro p hp
    rw [hM]
    rcases maxOfLevels_spec (s.module_levels.map Prod.snd) with ⟨hemp, _⟩ | ⟨m', hsome, hbound, _⟩
    · rw [List.map_eq_nil_iff.1 hemp] at hp
      simp at hp
    · simp only [hsome]
      exact le_trans (hbound p.2 (List.mem_map_of_mem Prod.snd hp))
        (lfMaxPair_left_le m' s.default_level)
  refine ⟨hdef, hmods, ?_, ?_⟩
  · rw [hM]
    rcases maxOfLevels_spec (s.module_levels.map Prod.snd) with ⟨_, hnone⟩ | ⟨m', hsome, _, hmem⟩
    · simp only [hnone]
      exact Or.inl trivial
    · simp only [hsome]
      rcases lfMaxPair_eq_or m' s.default_level with h | h
      · rw [h]
        obtain ⟨p, hp, hps⟩ := List.mem_map.1 hmem
        exact Or.inr ⟨p, hp, hps.symm⟩
      · exact Or.inl h
  · intro tgt lvl h
    have hle := (enabled_rank_iff _ tgt lvl).1 h
    have hmem := resolveThreshold_mem (s.partialInit).1 tgt
    rcases hmem with heq | ⟨p, hp, heq⟩
    · rw [heq] at hle
      exact le_trans hle hdef
    · rw [heq] at hle
      have hp' : p ∈ s.module_levels := by
        have hperm := sortByKey_perm (fun p : String × LevelFilter => usizeWrappingNeg p.1.length)
          s.module_levels
        exact hperm.mem_iff.1 hp
      exact le_trans hle (hmods p hp')

/-- Witness for C10: default `Info` with one override `("a", Warn)`; the
record `(Warn, "ab")` is enabled and indeed passes the max-level gate. -/
theorem enabled_implies_max_level_gate_spot :
    Level.warn.rank ≤
      (({ UdpLogger.new with
        default_level := LevelFilter.info
        module_levels := [("a", LevelFilter.warn)] }).partialInit).2.rank :=
  (enabled_implies_max_level_gate _).2.2.2 "ab" Level.warn (by decide)

/-! ### Claim C1 -/

/-- In a list sorted strictly descending by prefix length, `find?` returns
the (unique) matching rule of maximal prefix length. -/
theorem find_first_longest (cat : String) (l : List (String × LevelFilter))
    (hp : l.Pairwise fun a b => b.1.length < a.1.length) (r : String × LevelFilter)
    (hr : r ∈ l) (hmatch : strStartsWith cat r.1 = true)
    (hmax : ∀ q ∈ l, strStartsWith cat q.1 = true → q.1.length ≤ r.1.length) :
    l.find? (fun p => strStartsWith cat p.1) = some r := by
  induction l with
  | nil => simp at hr
  | cons a t ih =>
    rw [List.pairwise_cons] at hp
    by_cases ha : strStartsWith cat a.1 = true
    · have hfind : List.find? (fun p => strStartsWith cat p.1) (a :: t) = some a :=
        List.find?_cons_of_pos t ha
      rcases List.mem_cons.1 hr with rfl | hr
      · exact hfind
      · exfalso
        have h1 := hp.1 r hr
        have h2 := hmax a (List.mem_cons_self a t) ha
        omega
    · have hfind : List.find? (fun p => strStartsWith cat p.1) (a :: t) =
          List.find? (fun p => strStartsWith cat p.1) t :=
        List.find?_cons_of_neg t ha
      rw [hfind]
      rcases List.mem_cons.1 hr with rfl | hr
      · exact absurd hmatch ha
      · exact ih hp.2 hr (fun q hq hqc => hmax q (List.mem_cons_of_mem a hq) hqc)

/-- After `partial_init`, module rules with nonempty prefixes of distinct,
`usize`-representable lengths are sorted strictly descending by prefix
length. -/
theorem sorted_strict_desc (s : UdpLogger)
    (hlen : ∀ p ∈ s.module_levels, 1 ≤ p.1.length ∧ p.1.length < 2 ^ 64)
    (hdist : s.module_levels.Pairwise fun a b => a.1.length ≠ b.1.length) :
    (sortByKey (fun p : String × LevelFilter => usizeWrappingNeg p.1.length)
        s.module_levels).Pairwise fun a b => b.1.length < a.1.length := by
  have hsorted := sortByKey_pairwise
    (fun p : String × LevelFilter => usizeWrappingNeg p.1.length) s.module_levels
  have hperm := sortByKey_perm
    (fun p : String × LevelFilter => usizeWrappingNeg p.1.length) s.module_levels
  have hdist' := (hperm.pairwise_iff fun h => Ne.symm h).2 hdist
  refine (hsorted.and hdist').imp_of_mem ?_
  intro a b hma hmb hab
  have ha := hlen a (hperm.mem_iff.1 hma)
  have hb := hlen b (hperm.mem_iff.1 hmb)
  have hkey := hab.1
  have hne := hab.2
  unfold usizeWrappingNeg at hkey
  omega

/-- C1 (amended): for every rule set whose prefixes are nonempty and have
pairwise-distinct lengths, the resolved threshold is that of the longest
rule prefix the category starts with, and the default severity when no
rule's prefix is a prefix of the category.  (The nonemptiness hypothesis is
forced by `usize::wrapping_neg`: an empty prefix receives sort key `0` and
is consulted first, not last — see the counterexample.) -/
theorem resolve_longest_matching_rule (s : UdpLogger) (cat : String)
    (hlen : ∀ p ∈ s.module_levels, 1 ≤ p.1.length ∧ p.1.length < 2 ^ 64)
    (hdist : s.module_levels.Pairwise fun a b => a.1.length ≠ b.1.length) :
    (∀ r ∈ s.module_levels, strStartsWith cat r.1 = true →
      (∀ q ∈ s.module_levels, strStartsWith cat q.1 = true → q.1.length ≤ r.1.length) →
      (s.partialInit).1.resolveThreshold cat = r.2) ∧
    ((∀ q ∈ s.module_levels, strStartsWith cat q.1 = false) →
      (s.partialInit).1.resolveThreshold cat = s.default_level) := by
  have hml : (s.partialInit).1.module_levels =
      sortByKey (fun p : String × LevelFilter => usizeWrappingNeg p.1.length)
        s.module_levels := rfl
  have hdl : (s.partialInit).1.default_level = s.default_level := rfl
  have hperm := sortByKey_perm
    (fun p : String × LevelFilter => usizeWrappingNeg p.1.length) s.module_levels
  constructor
  · intro r hr hm hmax
    have hfind := find_first_longest cat _ (sorted_strict_desc s hlen hdist) r
      (hperm.mem_iff.2 hr) hm
      (fun q hq hqc => hmax q (hperm.mem_iff.1 hq) hqc)
    unfold UdpLogger.resolveThreshold
    rw [hml, hfind]
    rfl
  · intro hnone
    have hfind : ((s.partialInit).1.module_levels.find?
        fun p => strStartsWith cat p.1) = none := by
      rw [hml]
      refine List.find?_eq_none.2 ?_
      intro q hq
      rw [hnone q (hperm.mem_iff.1 hq)]
      simp
    unfold UdpLogger.resolveThreshold
    rw [hfind, hdl]
    rfl

/-- Counterexample for C1 as stated: the rule set
`[("", Off), ("foo", Trace)]` has pairwise-distinct prefix lengths and
`"foo"` is the longest prefix of the category `"foo"`, yet resolution
returns `Off` (the empty prefix's threshold), because
`"".len().wrapping_neg() = 0` makes the empty prefix sort first. -/
theorem resolve_longest_matching_rule_cx :
    List.Pairwise (fun a b : String × LevelFilter => a.1.length ≠ b.1.length)
      [("", LevelFilter.off), ("foo", LevelFilter.trace)] ∧
    strStartsWith "foo" "foo" = true ∧
    (∀ q ∈ [("", LevelFilter.off), ("foo", LevelFilter.trace)],
      strStartsWith "foo" q.1 = true → q.1.length ≤ "foo".length) ∧
    ({ UdpLogger.new with
        module_levels :=
          [("", LevelFilter.off), ("foo", LevelFilter.trace)] }.partialInit).1.resolveThreshold
        "foo" = LevelFilter.off ∧
    LevelFilter.off ≠ LevelFilter.trace := by
  refine ⟨?_, ?_, ?_, ?_, ?_⟩ <;> decide

/-- Witness for C1: rules `("fo", Warn)` and `("foo", Info)`; the category
`"foobar"` matches both, the longest match is `"foo"`, and resolution
returns `Info`. -/
theorem resolve_longest_matching_rule_spot :
    ({ UdpLogger.new with
        module_levels :=
          [("fo", LevelFilter.warn), ("foo", LevelFilter.info)] }.partialInit).1.resolveThreshold
        "foobar" = LevelFilter.info :=
  (resolve_longest_matching_rule _ "foobar" (by decide) (by decide)).1
    ("foo", LevelFilter.info) (by decide) (by decide) (by decide)

/-! ### Claim C7 -/

/-- Minimum key value over a list (meaningful on nonempty lists). -/
def minKeyVal {α : Type} (key : α → Nat) : List α → Nat
  | [] => 0
  | [a] => key a
  | a :: t => min (key a) (minKeyVal key t)

/-- The minimum key value bounds every member's key. -/
theorem minKeyVal_le {α : Type} (key : α → Nat) (l : List α) :
    ∀ x ∈ l, minKeyVal key l ≤ key x := by
  induction l with
  | nil => simp
  | cons a t ih =>
    intro x hx
    cases t with
    | nil =>
      rcases List.mem_cons.1 hx with rfl | hx
      · simp [minKeyVal]
      · simp at hx
    | cons b u =>
      rcases List.mem_cons.1 hx with rfl | hx
      · simp [minKeyVal]
      · have := ih x hx
        simp only [minKeyVal]
        omega

/-- Any common lower bound on keys bounds the minimum key value. -/
theorem le_minKeyVal {α : Type} (key : α → Nat) (l : List α) (c : Nat)
    (hb : ∀ x ∈ l, c ≤ key x) (hne : l ≠ []) : c ≤ minKeyVal key l := by
  induction l with
  | nil => exact absurd rfl hne
  | cons a t ih =>
    cases t with
    | nil =>
      simpa [minKeyVal] using hb a (List.mem_cons_self a [])
    | cons b u =>
      have h1 := hb a (List.mem_cons_self a _)
      have h2 := ih (fun x hx => hb x (List.mem_cons_of_mem a hx)) (by simp)
      simp only [minKeyVal]
      omega

/-- The head of the stable sort is the first element achieving the minimum
key value. -/
theorem sortByKey_head {α : Type} (key : α → Nat) (l : List α) (hne : l ≠ []) :
    (sortByKey key l).head? = l.find? fun a => key a == minKeyVal key l := by
  induction l with
  | nil => exact absurd rfl hne
  | cons a t ih =>
    cases t with
    | nil => simp [sortByKey, insertByKey, minKeyVal]
    | cons b u =>
      have hlen : (sortByKey key (b :: u)).length = (b :: u).length :=
        (sortByKey_perm key (b :: u)).length_eq
      cases hs : sortByKey key (b :: u) with
      | nil => rw [hs] at hlen; simp at hlen
      | cons c s =>
        have hhead := ih (by simp)
        rw [hs] at hhead
        have hcfind : (b :: u).find? (fun x => key x == minKeyVal key (b :: u)) = some c :=
          hhead.symm
        have hck : key c = minKeyVal key (b :: u) := by
          have := List.find?_some hcfind
          simpa using this
        show (insertByKey key a (sortByKey key (b :: u))).head? = _
        rw [hs]
        unfold insertByKey
        by_cases hac : key a ≤ key c
        · rw [if_pos hac]
          have hm : minKeyVal key (a :: b :: u) = key a := by
            simp only [minKeyVal]
            omega
          rw [hm]
          have : List.find? (fun x => key x == key a) (a :: b :: u) = some a :=
            List.find?_cons_of_pos _ (by simp)
          rw [this]
          rfl
        · rw [if_neg hac]
          have hm : minKeyVal key (a :: b :: u) = minKeyVal key (b :: u) := by
            simp only [minKeyVal]
            omega
          rw [hm]
          have hna : ¬((fun x => key x == minKeyVal key (b :: u)) a = true) := by
            simp
            omega
          have hred : List.find? (fun x => key x == minKeyVal key (b :: u)) (a :: b :: u) =
              List.find? (fun x => key x == minKeyVal key (b :: u)) (b :: u) :=
            List.find?_cons_of_neg _ hna
          rw [hred, hcfind]
          rfl

/-- C7 (amended): adding tiers whose thresholds all rank at or above the
lowest existing threshold never changes the routing of a level strictly
more severe than that lowest threshold.  (Adding a tier with a threshold
below the existing minimum does change such routing — see the
counterexample.) -/
theorem addTiers_preserves_routing {α : Type} (old extra : List (LevelFilter × α))
    (lvl : Level) (dflt : α) (t0 : LevelFilter × α) (ht0 : t0 ∈ old)
    (hmin : ∀ t ∈ old, t0.1.rank ≤ t.1.rank)
    (hextra : ∀ t ∈ extra, t0.1.rank ≤ t.1.rank)
    (hlvl : lvl.rank < t0.1.rank) :
    selectTier (sortByKey (fun p => p.1.rank) (old ++ extra)) lvl dflt =
      selectTier (sortByKey (fun p => p.1.rank) old) lvl dflt := by
  set key : LevelFilter × α → Nat := fun p => p.1.rank with hkey
  have hone : old ≠ [] := by
    intro h
    rw [h] at ht0
    simp at ht0
  have hbothne : old ++ extra ≠ [] := by
    intro h
    rcases List.append_eq_nil.1 h with ⟨h1, _⟩
    exact hone h1
  have hkold : minKeyVal key old = key t0 :=
    le_antisymm (minKeyVal_le key old t0 ht0) (le_minKeyVal key old (key t0) hmin hone)
  have hkboth : minKeyVal key (old ++ extra) = key t0 := by
    refine le_antisymm (minKeyVal_le key _ t0 (List.mem_append_left extra ht0)) ?_
    refine le_minKeyVal key _ (key t0) ?_ hbothne
    intro x hx
    rcases List.mem_append.1 hx with hx | hx
    · exact hmin x hx
    · exact hextra x hx
  have hfold : old.find? (fun a => key a == key t0) = some ((old.find?
      (fun a => key a == key t0)).getD t0) := by
    have hsome : (old.find? fun a => key a == key t0).isSome := by
      rw [List.find?_isSome]
      exact ⟨t0, ht0, by simp⟩
    cases hf : old.find? fun a => key a == key t0 with
    | none => rw [hf] at hsome; simp at hsome
    | some c => rfl
  set c : LevelFilter × α := (old.find? fun a => key a == key t0).getD t0 with hc
  have hfboth : (old ++ extra).find? (fun a => key a == key t0) = some c := by
    rw [List.find?_append, hfold]
    rfl
  have hcrank : lvl.rank < c.1.rank := by
    have := List.find?_some hfold
    have hck : key c = key t0 := by simpa using this
    have : c.1.rank = t0.1.rank := hck
    omega
  have hhead1 := sortByKey_head key (old ++ extra) hbothne
  have hhead2 := sortByKey_head key old hone
  rw [hkboth, hfboth] at hhead1
  rw [hkold, hfold] at hhead2
  cases h1 : sortByKey key (old ++ extra) with
  | nil => rw [h1] at hhead1; simp at hhead1
  | cons x1 r1 =>
    cases h2 : sortByKey key old with
    | nil => rw [h2] at hhead2; simp at hhead2
    | cons x2 r2 =>
      rw [h1] at hhead1
      rw [h2] at hhead2
      simp at hhead1 hhead2
      subst hhead1
      subst hhead2
      have hgel : c.1.geLevel lvl = true := by
        simp [LevelFilter.geLevel]
        omega
      show selectTier (c :: r1) lvl dflt = selectTier (c :: r2) lvl dflt
      unfold selectTier
      have hf1 : List.find? (fun t => t.1.geLevel lvl) (c :: r1) = some c :=
        List.find?_cons_of_pos _ hgel
      have hf2 : List.find? (fun t => t.1.geLevel lvl) (c :: r2) = some c :=
        List.find?_cons_of_pos _ hgel
      rw [hf1, hf2]

/-- Counterexample for C7 as stated: one tier `(Info, "A")` with default
`"D"`; `Error` is strictly more severe than the lowest configured threshold
`Info` and routes to `"A"`, but adding the tier `(Warn, "B")` reroutes
`Error` to `"B"`. -/
theorem addTiers_changes_routing_cx :
    Level.error.rank < LevelFilter.info.rank ∧
    selectTier (sortByKey (fun p : LevelFilter × String => p.1.rank)
        [(LevelFilter.info, "A")]) Level.error "D" = "A" ∧
    selectTier (sortByKey (fun p : LevelFilter × String => p.1.rank)
        ([(LevelFilter.info, "A")] ++ [(LevelFilter.warn, "B")])) Level.error "D" = "B" := by
  refine ⟨?_, ?_, ?_⟩ <;> decide

/-- Witness for C7 (amended): adding the higher tier `(Debug, "B")` to
`[(Info, "A")]` leaves the routing of `Error` unchanged. -/
theorem addTiers_preserves_routing_spot :
    selectTier (sortByKey (fun p : LevelFilter × String => p.1.rank)
        ([(LevelFilter.info, "A")] ++ [(LevelFilter.debug, "B")])) Level.error "D" =
      selectTier (sortByKey (fun p : LevelFilter × String => p.1.rank)
        [(LevelFilter.info, "A")]) Level.error "D" :=
  addTiers_preserves_routing [(LevelFilter.info, "A")] [(LevelFilter.debug, "B")]
    Level.error "D" (LevelFilter.info, "A") (by decide) (by decide) (by decide) (by decide)

/-! ### Claim C4 -/

/-- String append concatenates the underlying character lists. -/
theorem strToList_append (a b : String) : (a ++ b).toList = a.toList ++ b.toList := by
  cases a; cases b; rfl

/-- The rendered digit character is a decimal digit. -/
theorem dCh_isDigit (n : Nat) : (dCh n).isDigit = true := by
  unfold dCh
  generalize hk : n % 10 = k
  have hlt : k < 10 := by omega
  interval_cases k <;> decide

/-- Parsing a rendered digit character recovers `n % 10`. -/
theorem digitVal_dCh (n : Nat) : digitVal (dCh n) = n % 10 := by
  unfold dCh
  generalize hk : n % 10 = k
  have hlt : k < 10 := by omega
  interval_cases k <;> decide

/-- The rendered timestamp is exactly 23 characters. -/
theorem formatTs_length (dt : DateTimeUtc) : (formatTs dt).length = 23 := by
  simp [formatTs, pad4, pad2, pad3]

/-- A valid datetime always renders to a well-formed timestamp string. -/
theorem validTimestamp_formatTs (dt : DateTimeUtc) (hv : dt.Valid) :
    validTimestamp23 (formatTs dt) = true := by
  obtain ⟨hy, hm1, hm2, hd1, hd2, hh, hmi, hs, hms⟩ := hv
  simp only [formatTs, pad4, pad2, pad3, List.cons_append, List.nil_append,
    List.append_assoc]
  simp only [validTimestamp23, List.all_cons, List.all_nil, dCh_isDigit,
    Bool.and_eq_true, beq_self_eq_true, digitVal_dCh, decide_eq_true_eq,
    true_and, and_true]
  have hdim : daysInMonth dt.year dt.month ≤ 31 := by
    unfold daysInMonth
    split <;> (try split) <;> omega
  have hdiv1 : dt.year / 100 / 10 = dt.year / 1000 := by
    rw [Nat.div_div_eq_div_mul]
  have hdiv2 : dt.year / 10 / 10 = dt.year / 100 := by
    rw [Nat.div_div_eq_div_mul]
  have hyy : dt.year / 1000 % 10 * 1000 + dt.year / 100 % 10 * 100 +
      dt.year / 10 % 10 * 10 + dt.year % 10 = dt.year := by omega
  have hmo : dt.month / 10 % 10 * 10 + dt.month % 10 = dt.month := by omega
  have hdd : dt.day / 10 % 10 * 10 + dt.day % 10 = dt.day := by omega
  have hho : dt.hour / 10 % 10 * 10 + dt.hour % 10 = dt.hour := by omega
  have hmin : dt.minute / 10 % 10 * 10 + dt.minute % 10 = dt.minute := by omega
  have hsec : dt.second / 10 % 10 * 10 + dt.second % 10 = dt.second := by omega
  rw [hyy, hmo, hdd, hho, hmin, hsec]
  exact ⟨⟨⟨⟨⟨⟨hm1, hm2⟩, hd1⟩, hd2⟩, hh⟩, hmi⟩, hs⟩

/-- C4: in the `Uncompressed` text encoding, the payload's first 23
characters parse as a valid `YYYY-MM-DD HH:MM:SS.mmm` UTC timestamp, and
the characters from position 24 onward are exactly the level name padded to
5 characters, a space, `[category]`, a space, the message, and the rendered
attributes. -/
theorem textPayload_layout (dt : DateTimeUtc) (hv : dt.Valid) (lvl : Level)
    (target args kvText : String) :
    validTimestamp23 ((textPayload dt lvl target args kvText).toList.take 23) = true ∧
    (textPayload dt lvl target args kvText).toList.drop 24 =
      (padTo5 (levelName lvl) ++ " [" ++ target ++ "] " ++ args ++ kvText).toList := by
  have hsplit : (textPayload dt lvl target args kvText).toList =
      (formatTs dt ++ [' ']) ++
        (padTo5 (levelName lvl) ++ " [" ++ target ++ "] " ++ args ++ kvText).toList := by
    simp [textPayload, tsString, strToList_append]
  have hlen24 : (formatTs dt ++ [' ']).length = 24 := by
    simp [formatTs_length]
  constructor
  · rw [hsplit]
    have h23 : List.take 23 ((formatTs dt ++ [' ']) ++
        (padTo5 (levelName lvl) ++ " [" ++ target ++ "] " ++ args ++ kvText).toList) =
        formatTs dt := by
      rw [List.append_assoc, List.take_left' (formatTs_length dt)]
    rw [h23]
    exact validTimestamp_formatTs dt hv
  · rw [hsplit, List.drop_left' hlen24]

/-- Witness for C4 at a concrete datetime, level, category, and message. -/
theorem textPayload_layout_spot :
    validTimestamp23
        ((textPayload ⟨2026, 10, 12, 3, 4, 5, 678⟩ Level.info "test" "msg" "").toList.take
          23) = true ∧
    (textPayload ⟨2026, 10, 12, 3, 4, 5, 678⟩ Level.info "test" "msg" "").toList.drop 24 =
      (padTo5 (levelName Level.info) ++ " [" ++ "test" ++ "] " ++ "msg" ++ "").toList :=
  textPayload_layout ⟨2026, 10, 12, 3, 4, 5, 678⟩ (by decide) Level.info "test" "msg" ""

/-! ### Claim C5 -/

/-- The `ByteBuffer` frame is the concatenation of its four writes. -/
theorem byteBufferPayload_eq (ms : Int) (lvl : Level) (text : String) :
    byteBufferPayload ms lvl text =
      levelBytes lvl ++ i64be ms ++ u32be (utf8Bytes text).length ++ utf8Bytes text := by
  simp [byteBufferPayload, ByteBuffer.new, ByteBuffer.write, ByteBuffer.writeString,
    ByteBuffer.toBytes, List.append_assoc]

/-- The level byte is the severity code `Error=1 … Trace=5`, which equals
the level's rank. -/
theorem levelBytes_eq_rank (lvl : Level) : levelBytes lvl = [lvl.rank] := by
  cases lvl <;> rfl

/-- C5: a `ByteBuffer` frame is exactly one severity-code byte (`Error=1`,
`Warn=2`, `Info=3`, `Debug=4`, `Trace=5`), eight big-endian bytes of the
millisecond timestamp, four big-endian bytes holding the UTF-8 byte length
`N` of `"[category] message<attrs>"`, and those `N` UTF-8 bytes; in
particular for `Error`, category `"MyApp"`, message `"x"` and no attributes,
byte 0 is `1` and `N` is `9` for the text `"[MyApp] x"`. -/
theorem byteBufferPayload_frame (ms : Int) (lvl : Level) (target args kvText : String) :
    byteBufferPayload ms lvl ("[" ++ target ++ "] " ++ args ++ kvText) =
      levelBytes lvl ++ i64be ms ++
        u32be (utf8Bytes ("[" ++ target ++ "] " ++ args ++ kvText)).length ++
        utf8Bytes ("[" ++ target ++ "] " ++ args ++ kvText) ∧
    (byteBufferPayload ms lvl ("[" ++ target ++ "] " ++ args ++ kvText)).take 1 =
      [lvl.rank] ∧
    ((byteBufferPayload ms lvl ("[" ++ target ++ "] " ++ args ++ kvText)).drop 1).take 8 =
      i64be ms ∧
    ((byteBufferPayload ms lvl ("[" ++ target ++ "] " ++ args ++ kvText)).drop 9).take 4 =
      u32be (utf8Bytes ("[" ++ target ++ "] " ++ args ++ kvText)).length ∧
    (byteBufferPayload ms lvl ("[" ++ target ++ "] " ++ args ++ kvText)).drop 13 =
      utf8Bytes ("[" ++ target ++ "] " ++ args ++ kvText) ∧
    (byteBufferPayload ms Level.error "[MyApp] x").take 1 = [1] ∧
    (byteBufferPayload ms Level.error "[MyApp] x").drop 9 =
      [0, 0, 0, 9] ++ utf8Bytes "[MyApp] x" ∧
    (utf8Bytes "[MyApp] x").length = 9 := by
  have hlb : ∀ l : Level, (levelBytes l).length = 1 := by intro l; cases l <;> rfl
  have hi64 : (i64be ms).length = 8 := rfl
  set t := "[" ++ target ++ "] " ++ args ++ kvText with ht
  have hframe := byteBufferPayload_eq ms lvl t
  have hassoc : levelBytes lvl ++ i64be ms ++ u32be (utf8Bytes t).length ++ utf8Bytes t =
      levelBytes lvl ++ (i64be ms ++ (u32be (utf8Bytes t).length ++ utf8Bytes t)) := by
    simp [List.append_assoc]
  refine ⟨hframe, ?_, ?_, ?_, ?_, ?_, ?_, rfl⟩
  · rw [hframe, hassoc, List.take_left' (hlb lvl), levelBytes_eq_rank]
  · rw [hframe, hassoc, List.drop_left' (hlb lvl), List.take_left' hi64]
  · have hgroup : levelBytes lvl ++ i64be ms ++ u32be (utf8Bytes t).length ++ utf8Bytes t =
        (levelBytes lvl ++ i64be ms) ++
          (u32be (utf8Bytes t).length ++ utf8Bytes t) := by
      simp [List.append_assoc]
    rw [hframe, hgroup, List.drop_left' (by simp [hlb, hi64]),
      List.take_left' (show (u32be (utf8Bytes t).length).length = 4 from rfl)]
  · rw [hframe, List.drop_left' (by simp [hlb, hi64, u32be])]
  · have hframe2 := byteBufferPayload_eq ms Level.error "[MyApp] x"
    have hassoc2 : levelBytes Level.error ++ i64be ms ++
        u32be (utf8Bytes "[MyApp] x").length ++ utf8Bytes "[MyApp] x" =
        levelBytes Level.error ++ (i64be ms ++
          (u32be (utf8Bytes "[MyApp] x").length ++ utf8Bytes "[MyApp] x")) := by
      simp [List.append_assoc]
    rw [hframe2, hassoc2, List.take_left' (hlb Level.error)]
    rfl
  · have hframe2 := byteBufferPayload_eq ms Level.error "[MyApp] x"
    have hgroup2 : levelBytes Level.error ++ i64be ms ++
        u32be (utf8Bytes "[MyApp] x").length ++ utf8Bytes "[MyApp] x" =
        (levelBytes Level.error ++ i64be ms) ++
          (u32be (utf8Bytes "[MyApp] x").length ++ utf8Bytes "[MyApp] x") := by
      simp [List.append_assoc]
    rw [hframe2, hgroup2, List.drop_left' (by simp [hlb, hi64])]
    rfl

/-! ### Claim C8 -/

/-- Both branches of the send-result match report the same single send
attempt. -/
theorem sendCalls_match_const (e : Except String Nat)
    (call : String × List Nat × String) :
    (match e with
      | Except.ok _ => ({ sendCalls := [call], diagnostics := [] } : LogOutcome)
      | Except.error err =>
        { sendCalls := [call]
          diagnostics := ["error sending payload, err=" ++ err] }).sendCalls = [call] := by
  cases e <;> rfl

/-- C8: a send failure is non-fatal and per-record — exactly one send
attempt is made per enabled record (none when disabled), a failing send only
adds one diagnostic line and never changes what was sent or the call's
completion, and a failure while walking the attribute source is swallowed,
the encoding proceeding with the attribute text accumulated before the
failure. -/
theorem log_send_failure_nonfatal (s : UdpLogger) (dt : DateTimeUtc) (ms : Int)
    (rec : Record) (net : String → List Nat → String → Except String Nat) :
    ((s.logRun dt ms rec net).sendCalls.length =
      if s.enabled rec.level rec.target = true then 1 else 0) ∧
    (∀ e, (∀ a b c, net a b c = .error e) → s.enabled rec.level rec.target = true →
      (s.logRun dt ms rec net).diagnostics = ["error sending payload, err=" ++ e] ∧
      (s.logRun dt ms rec net).sendCalls.length = 1) ∧
    (∀ net' : String → List Nat → String → Except String Nat,
      (s.logRun dt ms rec net').sendCalls = (s.logRun dt ms rec net).sendCalls) ∧
    (∀ (ps : List (String × String)) (k : Nat), rec.kvs = KVSource.mk ps (some k) →
      s.logRun dt ms rec net =
        s.logRun dt ms { rec with kvs := KVSource.mk (ps.take k) none } net) := by
  refine ⟨?_, ?_, ?_, ?_⟩
  · by_cases h : s.enabled rec.level rec.target = true
    · simp only [UdpLogger.logRun, h, if_true]
      split <;> rfl
    · simp [UdpLogger.logRun, h]
  · intro e hnet h
    simp only [UdpLogger.logRun, h, if_true]
    rw [hnet]
    exact ⟨rfl, rfl⟩
  · intro net'
    by_cases h : s.enabled rec.level rec.target = true
    · simp only [UdpLogger.logRun, h, if_true]
      split <;> split <;> split <;> exact (sendCalls_match_const _ _).symm
    · simp [UdpLogger.logRun, h]
  · intro ps k hk
    simp [UdpLogger.logRun, hk, KVSource.visit, KVSource.yielded]

/-- Witness for C8: with the default configuration and a network that always
fails with "no route", an `Info` record produces exactly one diagnostic and
one send attempt. -/
theorem log_send_failure_nonfatal_spot :
    (UdpLogger.new.logRun ⟨2026, 1, 1, 0, 0, 0, 0⟩ 0
        { level := .info, target := "t", module_path := "m", args := "hello",
          kvs := ⟨[], none⟩ }
        (fun _ _ _ => .error "no route")).diagnostics =
      ["error sending payload, err=" ++ "no route"] ∧
    (UdpLogger.new.logRun ⟨2026, 1, 1, 0, 0, 0, 0⟩ 0
        { level := .info, target := "t", module_path := "m", args := "hello",
          kvs := ⟨[], none⟩ }
        (fun _ _ _ => .error "no route")).sendCalls.length = 1 :=
  (log_send_failure_nonfatal UdpLogger.new ⟨2026, 1, 1, 0, 0, 0, 0⟩ 0
      { level := .info, target := "t", module_path := "m", args := "hello",
        kvs := ⟨[], none⟩ }
      (fun _ _ _ => .error "no route")).2.1 "no route" (fun _ _ _ => rfl) (by decide)

/-! ### Claim C9 -/

/-- C9 (amended): failing to bind a requested local source socket aborts
construction immediately (the builder panics at configuration time), but
destination addresses are stored without any validation — `with_destination`
and `with_destination_level` cannot fail, and an invalid destination
surfaces only when a send is attempted. -/
theorem config_error_policy (s : UdpLogger) (bindOk : String → Bool) (addr : String)
    (lvl : LevelFilter) :
    (bindOk addr = false →
      s.withSource bindOk addr = .error "unable to bind to socket" ∧
      s.withSourceLevel bindOk addr lvl = .error "unable to bind to socket") ∧
    (bindOk addr = true →
      s.withSource bindOk addr = .ok { s with default_source := addr } ∧
      s.withSourceLevel bindOk addr lvl =
        .ok { s with sources := s.sources ++ [(lvl, addr)] }) ∧
    (s.withDestination addr = { s with default_destination := addr } ∧
      s.withDestinationLevel addr lvl =
        { s with destinations := s.destinations ++ [(lvl, addr)] }) := by
  refine ⟨?_, ?_, rfl, rfl⟩
  · intro h
    simp [UdpLogger.withSource, UdpLogger.withSourceLevel, h]
  · intro h
    simp [UdpLogger.withSource, UdpLogger.withSourceLevel, h]

/-- Counterexample for C9 as stated: an arbitrary invalid destination
address string is accepted at configuration time (construction succeeds and
stores it verbatim), and the failure surfaces only at send time as a
per-record diagnostic. -/
theorem withDestination_accepts_invalid :
    UdpLogger.new.withDestination "@@not-an-address@@" =
      { UdpLogger.new with default_destination := "@@not-an-address@@" } ∧
    (((UdpLogger.new.withDestination "@@not-an-address@@").partialInit).1.logRun
        ⟨2026, 1, 1, 0, 0, 0, 0⟩ 0
        { level := .info, target := "t", module_path := "m", args := "x",
          kvs := ⟨[], none⟩ }
        (fun _ _ dst =>
          if dst = "@@not-an-address@@" then .error "invalid socket address"
          else .ok 0)).diagnostics =
      ["error sending payload, err=invalid socket address"] := by
  exact ⟨rfl, by decide⟩

/-- Witness for C9 (amended): a refused bind aborts source configuration. -/
theorem config_error_policy_spot :
    UdpLogger.new.withSource (fun _ => false) "256.0.0.1:99999" =
      .error "unable to bind to socket" :=
  ((config_error_policy UdpLogger.new (fun _ => false) "256.0.0.1:99999"
      LevelFilter.info).1 rfl).1

end UdpLoggerRs
